import Mathlib

/-!
Verification of the HTTP policy pipeline core of `azure-core`
(`azure/core/pipeline/_base.py`), shallowly embedded in Lean 4.

The embedding mirrors the synchronous pipeline: a `Pipeline` owns a
transport and an ordered list of policy nodes; `run` threads a
`PipelineRequest` (HTTP request + per-call context) through the chain.
Python's in-place mutation of the single per-call context/request is
rendered as explicit state passing, and observable behaviour (which
hooks fire, in which order, with which option bag the transport is
invoked) is recorded as an event trace.  Exceptions are rendered with
`Except`: every step returns the trace of events it emitted together
with either a value or the propagating exception.
-/

/-- Exceptions are abstract values; re-raising "unmodified" is equality. -/
abbrev Err := String

/-- A Python `dict` of per-call options (`**kwargs`), embedded as an
association list.  Python dictionaries have unique keys; theorems that
need uniqueness take it as a `keysNodup` hypothesis. -/
abbrev Options := List (String × String)

/-- Association-list lookup: the value of the first entry with the given
key, mirroring `dict.__getitem__` on a dictionary. -/
def lookupOpt : Options → String → Option String
  | [], _ => none
  | kv :: rest, k => if kv.1 = k then some kv.2 else lookupOpt rest k

/-- The keys of the option bag are pairwise distinct, as they are for a
Python `dict`. -/
def keysNodup (o : Options) : Prop := (o.map Prod.fst).Nodup

instance (o : Options) : Decidable (keysNodup o) := by
  unfold keysNodup; infer_instance

/-- Embeds `kwargs.pop(key, None)`: remove the (first) entry with the
given key, leaving the bag unchanged when the key is absent. -/
def popKey : Options → String → Options
  | [], _ => []
  | kv :: rest, k => if kv.1 = k then rest else kv :: popKey rest k

/-- The removal list of `cleanup_kwargs_for_transport`
(`_base.py` line 68): `kwargs_to_remove`. -/
def kwargs_to_remove : List String :=
  ["insecure_domain_change", "enable_cae", "tracing_options"]

/-- Embeds `cleanup_kwargs_for_transport` (`_base.py` lines 54-72): if
the bag is empty return it unchanged (`if not kwargs: return`),
otherwise pop each key of `kwargs_to_remove` in order.  The Python
function mutates `kwargs` in place; the embedding returns the mutated
bag. -/
def cleanup_kwargs_for_transport (kwargs : Options) : Options :=
  if kwargs = [] then kwargs
  else kwargs_to_remove.foldl popKey kwargs

/-- An HTTP response as the transport produces it: a status code and a
body.  The pipeline core never inspects either field. -/
structure HttpResponse where
  status : Nat
  body : String
deriving DecidableEq, Repr

/-- A multipart sub-request as `_prepare_multipart_mixed_request` sees
it: identified by `rid`, either plain (`set_multipart_mixed` never
called on it, so `multipart_mixed_info` is `None`) or itself a composite
carrying its own sub-requests, sub-policy list (policies identified by
id) and pipeline options — the `multipart_mixed_info` tuple's slots
`[0]`, `[1]` and `[3]` (slot `[2]` is unused by the pipeline core and
omitted). -/
inductive MPReq where
  | simple (rid : Nat)
  | composite (rid : Nat) (subRequests : List MPReq) (subPolicies : List Nat)
      (subOptions : Options)

/-- The identifier of a multipart sub-request. -/
def MPReq.rid : MPReq → Nat
  | .simple r => r
  | .composite r _ _ _ => r

/-- An outbound HTTP request (method, URL, headers, body), plus the
`multipart_mixed_info` tuple when `set_multipart_mixed` was called:
sub-requests, sub-policy ids, and the pipeline options dict (tuple slots
`[0]`, `[1]`, `[3]`). -/
structure HttpRequest where
  method : String
  url : String
  headers : List (String × String)
  body : Option String
  multipart_mixed_info : Option (List MPReq × List Nat × Options)

/-- The transport: an opaque capability that performs the network I/O
for one request, given the sanitized keyword arguments, and either
returns a raw response or raises. -/
structure Transport where
  send : HttpRequest → Options → Except Err HttpResponse

/-- Embeds `PipelineContext` as `run` creates it: the per-call option
bag plus a back-reference to the transport in use (`None` for the
contexts created during multipart preparation). -/
structure PipelineContext where
  transport : Option Transport
  options : Options

/-- Embeds `PipelineRequest`: pairs the HTTP request with its context;
the unit passed down the policy chain. -/
structure PipelineRequest where
  http_request : HttpRequest
  context : PipelineContext

/-- Embeds `PipelineResponse`: the request, the raw transport response
and the (shared) context, as built by `_TransportRunner.send`. -/
structure PipelineResponse where
  http_request : HttpRequest
  http_response : HttpResponse
  context : PipelineContext

/-- Observable events of one pipeline run.  Policy hooks are identified
by the owning policy's id; `transportSend` records the keyword
arguments actually handed to the transport; `mpOnRequest pid rid`
records the multipart preparation phase applying sub-policy `pid` to
sub-request `rid`; `serializeMultipartBody` records
`request.prepare_multipart_body()` serializing the composite body;
`transportEnter`/`transportExit` record the transport's own
`__enter__`/`__exit__`. -/
inductive Event where
  | onRequest (pid : Nat)
  | onResponse (pid : Nat)
  | onException (pid : Nat)
  | transportSend (opts : Options)
  | mpOnRequest (pid : Nat) (rid : Nat)
  | serializeMultipartBody
  | transportEnter
  | transportExit
deriving DecidableEq, Repr

/-- A step of the pipeline: the events it emitted, together with either
its value or the exception that propagates out of it. -/
abbrev Step (α : Type) := List Event × Except Err α

/-- Embeds the `SansIOHTTPPolicy` contract.  Modelled from the spec
(§4.1): the base class itself is outside the analyzed sources; its
hooks inspect/mutate the request before send and the response after
send, and may raise.  In-place mutation is rendered as returning the
updated value; `on_exception` performs cleanup only. -/
structure SansIOHTTPPolicy where
  pid : Nat
  on_request : PipelineRequest → Except Err PipelineRequest
  on_response : PipelineRequest → PipelineResponse → Except Err PipelineResponse
  on_exception : PipelineRequest → Except Err Unit

/-- Embeds the `HTTPPolicy` (chaining) contract.  Modelled from the spec
(§4.3): full control over whether/when/how many times to call onward;
`send` receives the downstream link's send as a continuation. -/
structure HTTPPolicy where
  pid : Nat
  send : (PipelineRequest → Step PipelineResponse) → PipelineRequest →
      Step PipelineResponse

/-- Embeds `_SansIOHTTPPolicyRunner.send` (`_base.py` lines 88-103),
parametric in the downstream link `nextSend` (the runner's `self.next`):
call `on_request`; on success call the next link; if that raises, call
`on_exception` and re-raise the original exception (unless
`on_exception` itself raises, in which case that exception propagates,
as in Python); on success call `on_response` and return the response it
observed/mutated. -/
def sansIORunnerSend (p : SansIOHTTPPolicy)
    (nextSend : PipelineRequest → Step PipelineResponse)
    (request : PipelineRequest) : Step PipelineResponse :=
  match p.on_request request with
  | .error e => ([.onRequest p.pid], .error e)
  | .ok request' =>
    match nextSend request' with
    | (tr, .error e) =>
      match p.on_exception request' with
      | .error e2 => (.onRequest p.pid :: tr ++ [.onException p.pid], .error e2)
      | .ok _ => (.onRequest p.pid :: tr ++ [.onException p.pid], .error e)
    | (tr, .ok response) =>
      match p.on_response request' response with
      | .error e2 => (.onRequest p.pid :: tr ++ [.onResponse p.pid], .error e2)
      | .ok response' =>
          (.onRequest p.pid :: tr ++ [.onResponse p.pid], .ok response')

/-- Embeds `_TransportRunner.send` (`_base.py` lines 119-132): run
`cleanup_kwargs_for_transport` on the context's option bag (in Python an
in-place mutation of the shared per-call context; here the cleaned
context is threaded into everything downstream), call the transport's
send with the request and the cleaned options, and wrap the raw result
with the request and the shared context into a `PipelineResponse`. -/
def transportRunnerSend (sender : Transport) (request : PipelineRequest) :
    Step PipelineResponse :=
  let cleaned := cleanup_kwargs_for_transport request.context.options
  let ctx : PipelineContext := { request.context with options := cleaned }
  match sender.send request.http_request cleaned with
  | .error e => ([.transportSend cleaned], .error e)
  | .ok response =>
      ([.transportSend cleaned], .ok ⟨request.http_request, response, ctx⟩)

/-- A node of the assembled chain (`Pipeline._impl_policies`): either a
simple policy wrapped in its `_SansIOHTTPPolicyRunner` adapter, or a
chaining `HTTPPolicy` kept as-is. -/
inductive ImplNode where
  | sansIORunner (p : SansIOHTTPPolicy)
  | chaining (p : HTTPPolicy)

/-- The execution semantics of the assembled chain: each node's send
calls the next node's send (`node[i].next = node[i+1]`, established by
`Pipeline.init`); past the last node sits the `_TransportRunner` (and
`Pipeline.run` sends directly to a fresh `_TransportRunner` when the
list is empty, `_base.py` line 241). -/
def sendNodes : List ImplNode → Transport → PipelineRequest →
    Step PipelineResponse
  | [], sender, request => transportRunnerSend sender request
  | .sansIORunner p :: rest, sender, request =>
      sansIORunnerSend p (fun r => sendNodes rest sender r) request
  | .chaining p :: rest, sender, request =>
      p.send (fun r => sendNodes rest sender r) request

/-- An element of the policy list handed to the `Pipeline` constructor:
either a simple (`SansIOHTTPPolicy`) policy or a chaining `HTTPPolicy`.
The Python list may also contain `None` entries, rendered as `none` in
`List (Option PolicyInput)`. -/
inductive PolicyInput where
  | sansIOPolicy (p : SansIOHTTPPolicy)
  | httpPolicy (p : HTTPPolicy)

/-- Embeds the first loop of `Pipeline.__init__` (`_base.py` lines
170-174) building `self._impl_policies`: a `SansIOHTTPPolicy` is
wrapped in a `_SansIOHTTPPolicyRunner`; otherwise a truthy policy (an
`HTTPPolicy` instance is always truthy) is appended as-is; a `None`
entry is skipped. -/
def wrapPolicies : List (Option PolicyInput) → List ImplNode
  | [] => []
  | some (.sansIOPolicy p) :: rest => .sansIORunner p :: wrapPolicies rest
  | some (.httpPolicy p) :: rest => .chaining p :: wrapPolicies rest
  | none :: rest => wrapPolicies rest

/-- A pipeline: owns the transport and the built `_impl_policies`. -/
structure Pipeline where
  _transport : Transport
  _impl_policies : List ImplNode

/-- Embeds `Pipeline.__init__` (`_base.py` lines 155-178): store the
transport and the wrapped policy list.  The `next`-pointer assignments
of lines 175-178 are the linked view `Pipeline.linkedChain` below. -/
def Pipeline.init (transport : Transport)
    (policies : List (Option PolicyInput)) : Pipeline :=
  ⟨transport, wrapPolicies policies⟩

/-- The target of a node's `next` reference: the node at index `i + 1`,
or the terminal `_TransportRunner` over the pipeline's transport. -/
inductive NextPtr where
  | idx (i : Nat)
  | transportRunner (sender : Transport)

/-- A chain node together with its `next` reference (`none` renders an
`HTTPPolicy.next` never assigned). -/
structure LinkedNode where
  node : ImplNode
  next : Option NextPtr

/-- The net effect of the `next`-pointer assignments of
`Pipeline.__init__` (`_base.py` lines 175-178): after
`for index in range(len(self._impl_policies) - 1):
self._impl_policies[index].next = self._impl_policies[index + 1]` and
`if self._impl_policies: self._impl_policies[-1].next =
_TransportRunner(self._transport)`, node `i` points at node `i + 1`
for every non-last `i`, and the last node points at a fresh
`_TransportRunner` over the given transport. -/
def linkChain (nodes : List ImplNode) (sender : Transport) : List LinkedNode :=
  nodes.mapIdx (fun i n =>
    ⟨n, if i + 1 = nodes.length then some (.transportRunner sender)
        else some (.idx (i + 1))⟩)

/-- The linked view of a pipeline's built chain. -/
def Pipeline.linkedChain (pl : Pipeline) : List LinkedNode :=
  linkChain pl._impl_policies pl._transport

/-- Recognizes a `next` reference to a `_TransportRunner` (a terminal
link of the chain). -/
def LinkedNode.pointsAtTransport (n : LinkedNode) : Bool :=
  match n.next with
  | some (.transportRunner _) => true
  | _ => false

mutual
/-- Embeds the recursive part of `prepare_requests` inside
`_prepare_multipart_mixed_request` (`_base.py` lines 207-214): a
sub-request with its own `multipart_mixed_info` first has its own
changeset prepared recursively; then each sub-policy's `on_request` is
applied to the sub-request (wrapped with a fresh
`PipelineContext(None, **pipeline_options)`). -/
def MPReq.prep : MPReq → List Event
  | .simple _ => []
  | .composite _ subs pids _ => prepSubRequests pids subs

/-- Embeds the fan-out of `_prepare_multipart_mixed_request`
(`_base.py` lines 216-220) over the direct sub-requests, linearized in
list order (the Python code fans out on a thread pool via
`executor.map`, which preserves list order of results; the claims
proved below are order-independent). -/
def prepSubRequests : List Nat → List MPReq → List Event
  | _, [] => []
  | pids, r :: rs =>
      (MPReq.prep r ++ pids.map (fun pid => Event.mpOnRequest pid r.rid)) ++
        prepSubRequests pids rs
end

/-- Embeds `Pipeline._prepare_multipart_mixed_request` (`_base.py`
lines 187-220): does nothing when `multipart_mixed_info` is `None`;
otherwise prepares every direct sub-request (recursively) with the
sub-policy list. -/
def _prepare_multipart_mixed_request (request : HttpRequest) : List Event :=
  match request.multipart_mixed_info with
  | none => []
  | some (subs, pids, _popts) => prepSubRequests pids subs

/-- Modelled from the spec: `request.prepare_multipart_body()` (called
at `_base.py` line 228) lives on the `HttpRequest` class outside the
analyzed sources; per the spec it serializes the parts into the
composite body for a request that declares a multi-part bundle, and the
preparation phase does nothing for a request without one. -/
def prepare_multipart_body (request : HttpRequest) : List Event :=
  match request.multipart_mixed_info with
  | none => []
  | some _ => [Event.serializeMultipartBody]

/-- Embeds `Pipeline._prepare_multipart` (`_base.py` lines 222-228):
execute the multipart policies, then serialize the composite body. -/
def _prepare_multipart (request : HttpRequest) : List Event :=
  _prepare_multipart_mixed_request request ++ prepare_multipart_body request

/-- Embeds `Pipeline.run` (`_base.py` lines 230-242): prepare the
multipart body, create a fresh `PipelineContext` from the transport and
the call's keyword arguments, wrap the request into a
`PipelineRequest`, and send it from the first chain node (or directly
from a fresh `_TransportRunner` when the policy list is empty). -/
def Pipeline.run (pl : Pipeline) (request : HttpRequest) (kwargs : Options) :
    Step PipelineResponse :=
  let prep := _prepare_multipart request
  let context : PipelineContext := ⟨some pl._transport, kwargs⟩
  let pipeline_request : PipelineRequest := ⟨request, context⟩
  let (tr, res) := sendNodes pl._impl_policies pl._transport pipeline_request
  (prep ++ tr, res)

/-- Embeds `Pipeline.__enter__` (`_base.py` lines 180-182): delegates
to the transport's `__enter__` and touches nothing else. -/
def Pipeline.enterTrace (_pl : Pipeline) : List Event := [.transportEnter]

/-- Embeds `Pipeline.__exit__` (`_base.py` lines 184-185): delegates to
the transport's `__exit__` and touches nothing else. -/
def Pipeline.exitTrace (_pl : Pipeline) : List Event := [.transportExit]

/-- Modelled from the spec: Python's `with pipeline: body` scoped-resource
semantics — `__enter__` runs first, the body runs, and `__exit__` runs
on every exit path, whether the body returns a value or raises; an
exception from the body keeps propagating after `__exit__` (Pipeline's
`__exit__` returns `None`, so it never suppresses). -/
def withPipeline (pl : Pipeline) (body : Pipeline → Step PipelineResponse) :
    Step PipelineResponse :=
  let (tr, res) := body pl
  (pl.enterTrace ++ tr ++ pl.exitTrace, res)

/-! ### Lemmas about the option bag and `cleanup_kwargs_for_transport` -/

/-- Popping a key yields a sublist of the original bag. -/
theorem popKey_sublist (o : Options) (k : String) :
    List.Sublist (popKey o k) o := by
  induction o with
  | nil => exact List.Sublist.refl []
  | cons kv rest ih =>
    show List.Sublist (if kv.1 = k then rest else kv :: popKey rest k) _
    by_cases hkv : kv.1 = k
    · rw [if_pos hkv]
      exact List.sublist_cons_self kv rest
    · rw [if_neg hkv]
      exact ih.cons₂ kv

/-- Popping one key does not change the lookup of a different key. -/
theorem lookupOpt_popKey_of_ne (o : Options) {key k : String} (h : key ≠ k) :
    lookupOpt (popKey o key) k = lookupOpt o k := by
  induction o with
  | nil => rfl
  | cons kv rest ih =>
    show lookupOpt (if kv.1 = key then rest else kv :: popKey rest key) k =
      if kv.1 = k then some kv.2 else lookupOpt rest k
    by_cases hkv : kv.1 = key
    · rw [if_pos hkv, if_neg (fun hh : kv.1 = k => h (hkv.symm.trans hh))]
    · rw [if_neg hkv]
      show (if kv.1 = k then some kv.2 else lookupOpt (popKey rest key) k) = _
      by_cases hk : kv.1 = k
      · rw [if_pos hk, if_pos hk]
      · rw [if_neg hk, if_neg hk, ih]

/-- A key absent from the bag looks up to `none`. -/
theorem lookupOpt_eq_none_of_not_mem (o : Options) (k : String)
    (h : k ∉ o.map Prod.fst) : lookupOpt o k = none := by
  induction o with
  | nil => rfl
  | cons kv rest ih =>
    simp only [List.map_cons, List.mem_cons, not_or] at h
    show (if kv.1 = k then some kv.2 else lookupOpt rest k) = none
    rw [if_neg (fun hkv => h.1 hkv.symm)]
    exact ih h.2

/-- On a bag with distinct keys, popping a key removes it entirely. -/
theorem lookupOpt_popKey_self (o : Options) (k : String) (h : keysNodup o) :
    lookupOpt (popKey o k) k = none := by
  induction o with
  | nil => rfl
  | cons kv rest ih =>
    simp only [keysNodup, List.map_cons, List.nodup_cons] at h
    show lookupOpt (if kv.1 = k then rest else kv :: popKey rest k) k = none
    by_cases hkv : kv.1 = k
    · rw [if_pos hkv]
      exact lookupOpt_eq_none_of_not_mem rest k (hkv ▸ h.1)
    · rw [if_neg hkv]
      show (if kv.1 = k then some kv.2 else lookupOpt (popKey rest k) k) = none
      rw [if_neg hkv]
      exact ih h.2

/-- Popping a key preserves distinctness of the keys. -/
theorem keysNodup_popKey (o : Options) (k : String) (h : keysNodup o) :
    keysNodup (popKey o k) :=
  List.Nodup.sublist ((popKey_sublist o k).map Prod.fst) h

/-- Unfolding of `cleanup_kwargs_for_transport` into the three pops in
source order. -/
theorem cleanup_kwargs_eq (o : Options) :
    cleanup_kwargs_for_transport o =
      popKey (popKey (popKey o "insecure_domain_change") "enable_cae")
        "tracing_options" := by
  unfold cleanup_kwargs_for_transport kwargs_to_remove
  by_cases h : o = [] <;> simp [h, popKey]

/-- The cleaned bag has distinct keys when the original does. -/
theorem keysNodup_cleanup (o : Options) (h : keysNodup o) :
    keysNodup (cleanup_kwargs_for_transport o) := by
  rw [cleanup_kwargs_eq]
  exact keysNodup_popKey _ _ (keysNodup_popKey _ _ (keysNodup_popKey _ _ h))

/-- Each key of the removal list is absent from the cleaned bag. -/
theorem cleanup_lookup_removed (o : Options) (k : String) (hnd : keysNodup o)
    (hk : k ∈ kwargs_to_remove) :
    lookupOpt (cleanup_kwargs_for_transport o) k = none := by
  rw [cleanup_kwargs_eq]
  simp only [kwargs_to_remove, List.mem_cons, List.mem_singleton,
    List.not_mem_nil, or_false] at hk
  rcases hk with hk | hk | hk <;> subst hk
  · rw [lookupOpt_popKey_of_ne _ (by decide), lookupOpt_popKey_of_ne _ (by decide)]
    exact lookupOpt_popKey_self o _ hnd
  · rw [lookupOpt_popKey_of_ne _ (by decide)]
    exact lookupOpt_popKey_self _ _ (keysNodup_popKey _ _ hnd)
  · exact lookupOpt_popKey_self _ _
      (keysNodup_popKey _ _ (keysNodup_popKey _ _ hnd))

/-- Every key outside the removal list is passed through unchanged
(same value) by the cleanup. -/
theorem cleanup_lookup_keep (o : Options) (k : String)
    (hk : k ∉ kwargs_to_remove) :
    lookupOpt (cleanup_kwargs_for_transport o) k = lookupOpt o k := by
  rw [cleanup_kwargs_eq]
  simp only [kwargs_to_remove, List.mem_cons, List.mem_singleton,
    List.not_mem_nil, or_false, not_or] at hk
  rw [lookupOpt_popKey_of_ne _ (fun h => hk.2.2 h.symm),
    lookupOpt_popKey_of_ne _ (fun h => hk.2.1 h.symm),
    lookupOpt_popKey_of_ne _ (fun h => hk.1 h.symm)]

/-! ### Helpers: run unfolding, all-simple chains, concrete fixtures -/

/-- Unfolding of `Pipeline.run` into the preparation trace followed by
the chain's trace and result. -/
theorem Pipeline.run_eq (pl : Pipeline) (request : HttpRequest)
    (kwargs : Options) :
    pl.run request kwargs =
      (_prepare_multipart request ++
          (sendNodes pl._impl_policies pl._transport
            ⟨request, ⟨some pl._transport, kwargs⟩⟩).1,
        (sendNodes pl._impl_policies pl._transport
          ⟨request, ⟨some pl._transport, kwargs⟩⟩).2) := rfl

/-- The chain built from a list of simple policies only: each one is
wrapped in its `_SansIOHTTPPolicyRunner`. -/
def sansIONodes (ps : List SansIOHTTPPolicy) : List ImplNode :=
  ps.map .sansIORunner

/-- Feeding `Pipeline.__init__` only simple policies wraps each of them
in a runner adapter, in order. -/
theorem wrapPolicies_sansIO (ps : List SansIOHTTPPolicy) :
    wrapPolicies (ps.map (fun p => some (PolicyInput.sansIOPolicy p))) =
      sansIONodes ps := by
  induction ps with
  | nil => rfl
  | cons p rest ih => simpa [wrapPolicies, sansIONodes] using ih

/-- A plain (non-multipart) GET request used by the concrete witnesses. -/
def reqPlain : HttpRequest := ⟨"GET", "https://contoso.test/a", [], none, none⟩

/-- A context with an empty option bag. -/
def ctx0 : PipelineContext := ⟨none, []⟩

/-- A pipeline request over `reqPlain` used by the concrete witnesses. -/
def preq0 : PipelineRequest := ⟨reqPlain, ctx0⟩

/-- A 200 response used by the concrete witnesses. -/
def respOk : HttpResponse := ⟨200, "ok"⟩

/-- A pipeline response used by the concrete witnesses. -/
def respPR : PipelineResponse := ⟨reqPlain, respOk, ctx0⟩

/-- A well-behaved simple policy with the given id: hooks succeed and
mutate nothing. -/
def pidPolicy (n : Nat) : SansIOHTTPPolicy :=
  ⟨n, fun r => .ok r, fun _ x => .ok x, fun _ => .ok ()⟩

/-- A transport whose send always succeeds with `respOk`. -/
def tOk : Transport := ⟨fun _ _ => .ok respOk⟩

/-- A pipeline request whose option bag carries one internal key
(`enable_cae`) and one transport key (`timeout`). -/
def preqOpts : PipelineRequest :=
  ⟨reqPlain, ⟨none, [("enable_cae", "1"), ("timeout", "30")]⟩⟩

/-! ### C1: the policy runner adapter's hook discipline -/

/-- C1: for every simple policy wrapped by the runner adapter and every
send through it, `on_request` fires exactly once before anything else;
then exactly one of `on_response`/`on_exception` fires, never both:
`on_response` when the downstream `next.send` returns a response (which
is then returned), `on_exception` when it raises (after which the very
same exception is re-raised).  The two trace equations exhibit the
single leading `onRequest` event and the single trailing
`onResponse`/`onException` event around the downstream trace. -/
theorem claim1_policy_runner_hook_discipline
    (p : SansIOHTTPPolicy) (nextSend : PipelineRequest → Step PipelineResponse)
    (request request' : PipelineRequest)
    (hreq : p.on_request request = .ok request') :
    (∀ tr resp, nextSend request' = (tr, .ok resp) →
        p.on_response request' resp = .ok resp →
        sansIORunnerSend p nextSend request =
          (Event.onRequest p.pid :: tr ++ [Event.onResponse p.pid], .ok resp)) ∧
    (∀ tr e, nextSend request' = (tr, .error e) →
        p.on_exception request' = .ok () →
        sansIORunnerSend p nextSend request =
          (Event.onRequest p.pid :: tr ++ [Event.onException p.pid],
            .error e)) := by
  constructor
  · intro tr resp hnext hresp
    simp [sansIORunnerSend, hreq, hnext, hresp]
  · intro tr e hnext hexc
    simp [sansIORunnerSend, hreq, hnext, hexc]

/-- Witness for C1 at a concrete policy, request and downstream link:
the success branch and the raising branch, each instantiated. -/
theorem claim1_witness :
    sansIORunnerSend (pidPolicy 7) (fun _ => ([], Except.ok respPR)) preq0 =
      ([Event.onRequest 7, Event.onResponse 7], .ok respPR) ∧
    sansIORunnerSend (pidPolicy 8) (fun _ => ([], Except.error "conn reset"))
        preq0 =
      ([Event.onRequest 8, Event.onException 8], .error "conn reset") :=
  ⟨(claim1_policy_runner_hook_discipline (pidPolicy 7)
      (fun _ => ([], Except.ok respPR)) preq0 preq0 rfl).1 [] respPR rfl rfl,
    (claim1_policy_runner_hook_discipline (pidPolicy 8)
      (fun _ => ([], Except.error "conn reset")) preq0 preq0 rfl).2 []
      "conn reset" rfl rfl⟩

/-! ### C3: what the transport runner passes to the transport -/

/-- C3: the keyword arguments the transport runner hands to the
transport's send are exactly the context's options cleaned by
`cleanup_kwargs_for_transport`: each of the three internal keys is
absent from them, and every other key keeps its original value. -/
theorem claim3_transport_kwargs_cleanup
    (sender : Transport) (request : PipelineRequest)
    (hnd : keysNodup request.context.options) :
    (transportRunnerSend sender request).1 =
      [Event.transportSend
        (cleanup_kwargs_for_transport request.context.options)] ∧
    (∀ k ∈ kwargs_to_remove,
        lookupOpt (cleanup_kwargs_for_transport request.context.options) k =
          none) ∧
    (∀ k, k ∉ kwargs_to_remove →
        lookupOpt (cleanup_kwargs_for_transport request.context.options) k =
          lookupOpt request.context.options k) := by
  refine ⟨?_, fun k hk => cleanup_lookup_removed _ k hnd hk,
    fun k hk => cleanup_lookup_keep _ k hk⟩
  unfold transportRunnerSend
  cases h : sender.send request.http_request
      (cleanup_kwargs_for_transport request.context.options) <;> simp [h]

/-- Witness for C3 at a concrete option bag: `enable_cae` is stripped,
`timeout` survives with its value. -/
theorem claim3_witness :
    (transportRunnerSend tOk preqOpts).1 =
      [Event.transportSend [("timeout", "30")]] ∧
    lookupOpt (cleanup_kwargs_for_transport preqOpts.context.options)
      "enable_cae" = none ∧
    lookupOpt (cleanup_kwargs_for_transport preqOpts.context.options)
      "timeout" = some "30" :=
  have h := claim3_transport_kwargs_cleanup tOk preqOpts (by decide)
  ⟨h.1, h.2.1 "enable_cae" (by decide),
    (h.2.2 "timeout" (by decide)).trans rfl⟩

/-! ### C4: the empty pipeline is the identity pipeline -/

/-- C4: a pipeline constructed with an empty policy list sends any
non-multipart request straight to the transport — the whole trace is
the single `transportSend` event (no policy hooks) — and returns a
`PipelineResponse` wrapping the transport's raw response unchanged,
paired with the original request and the per-call context created by
`run` (whose option bag the transport runner has cleaned). -/
theorem claim4_empty_pipeline_identity
    (sender : Transport) (request : HttpRequest) (kwargs : Options)
    (resp : HttpResponse)
    (hmp : request.multipart_mixed_info = none)
    (ht : sender.send request (cleanup_kwargs_for_transport kwargs) =
      .ok resp) :
    Pipeline.run (Pipeline.init sender []) request kwargs =
      ([Event.transportSend (cleanup_kwargs_for_transport kwargs)],
        .ok ⟨request, resp,
          ⟨some sender, cleanup_kwargs_for_transport kwargs⟩⟩) := by
  rw [Pipeline.run_eq]
  simp [Pipeline.init, wrapPolicies, sendNodes, transportRunnerSend, ht,
    _prepare_multipart, _prepare_multipart_mixed_request,
    prepare_multipart_body, hmp]

/-- Witness for C4: a concrete empty pipeline over a succeeding
transport returns the wrapped 200 response. -/
theorem claim4_witness :
    Pipeline.run (Pipeline.init tOk []) reqPlain [] =
      ([Event.transportSend []], .ok ⟨reqPlain, respOk, ⟨some tOk, []⟩⟩) :=
  claim4_empty_pipeline_identity tOk reqPlain [] respOk rfl rfl

/-! ### C2: pre-send hooks in list order, post-send hooks reversed -/

/-- On an all-simple chain whose hooks and transport never raise, the
chain trace is: every `on_request` in list order, the transport send,
then every `on_response` in strictly reverse list order. -/
theorem sendNodes_sansIO_trace (sender : Transport) :
    ∀ ps : List SansIOHTTPPolicy,
    (∀ p ∈ ps, ∀ r, ∃ r', p.on_request r = .ok r') →
    (∀ p ∈ ps, ∀ r x, ∃ x', p.on_response r x = .ok x') →
    (∀ hr o, ∃ resp, sender.send hr o = .ok resp) →
    ∀ r, ∃ opts resp,
      sendNodes (sansIONodes ps) sender r =
        (ps.map (fun p => Event.onRequest p.pid) ++
          [Event.transportSend opts] ++
          (ps.map (fun p => Event.onResponse p.pid)).reverse, .ok resp) := by
  intro ps
  induction ps with
  | nil =>
    intro _ _ htr r
    obtain ⟨resp, hsend⟩ :=
      htr r.http_request (cleanup_kwargs_for_transport r.context.options)
    refine ⟨cleanup_kwargs_for_transport r.context.options,
      ⟨r.http_request, resp,
        { r.context with
            options := cleanup_kwargs_for_transport r.context.options }⟩, ?_⟩
    simp [sansIONodes, sendNodes, transportRunnerSend, hsend]
  | cons p rest ih =>
    intro hreq hresp htr r
    obtain ⟨r', hr'⟩ := hreq p (List.mem_cons_self p rest) r
    obtain ⟨opts, resp, hrest⟩ :=
      ih (fun q hq => hreq q (List.mem_cons_of_mem p hq))
        (fun q hq => hresp q (List.mem_cons_of_mem p hq)) htr r'
    obtain ⟨resp', hresp'⟩ := hresp p (List.mem_cons_self p rest) r' resp
    refine ⟨opts, resp', ?_⟩
    show sansIORunnerSend p (fun rr => sendNodes (sansIONodes rest) sender rr)
        r = _
    simp only [sansIORunnerSend, hr', hrest, hresp']
    simp [List.append_assoc]

/-- C2: for a pipeline built from simple policies, when no hook and no
transport send raises, the run trace shows every policy's `on_request`
in list order before the transport send and every policy's
`on_response` after it in strictly reverse list order. -/
theorem claim2_hook_ordering
    (sender : Transport) (ps : List SansIOHTTPPolicy)
    (request : HttpRequest) (kwargs : Options)
    (hreq : ∀ p ∈ ps, ∀ r, ∃ r', p.on_request r = .ok r')
    (hresp : ∀ p ∈ ps, ∀ r x, ∃ x', p.on_response r x = .ok x')
    (htr : ∀ hr o, ∃ resp, sender.send hr o = .ok resp) :
    ∃ opts resp,
      Pipeline.run
          (Pipeline.init sender
            (ps.map (fun p => some (PolicyInput.sansIOPolicy p))))
          request kwargs =
        (_prepare_multipart request ++
          (ps.map (fun p => Event.onRequest p.pid) ++
            [Event.transportSend opts] ++
            (ps.map (fun p => Event.onResponse p.pid)).reverse),
          .ok resp) := by
  obtain ⟨opts, resp, h⟩ := sendNodes_sansIO_trace sender ps hreq hresp htr
    ⟨request, ⟨some sender, kwargs⟩⟩
  refine ⟨opts, resp, ?_⟩
  rw [Pipeline.run_eq]
  simp only [Pipeline.init, wrapPolicies_sansIO, h]

/-- Witness for C2: two concrete policies around a succeeding
transport; the trace is `on_request 1`, `on_request 2`, the send, then
`on_response 2`, `on_response 1`. -/
theorem claim2_witness :
    ∃ opts resp,
      Pipeline.run
          (Pipeline.init tOk
            ([pidPolicy 1, pidPolicy 2].map
              (fun p => some (PolicyInput.sansIOPolicy p))))
          reqPlain [] =
        ([Event.onRequest 1, Event.onRequest 2, Event.transportSend opts,
          Event.onResponse 2, Event.onResponse 1], .ok resp) :=
  claim2_hook_ordering tOk [pidPolicy 1, pidPolicy 2] reqPlain []
    (by intro p hp r; fin_cases hp <;> exact ⟨r, rfl⟩)
    (by intro p hp r x; fin_cases hp <;> exact ⟨x, rfl⟩)
    (fun _ _ => ⟨respOk, rfl⟩)

/-! ### C6: a raising `on_request` aborts before any network I/O -/

/-- On an all-simple chain where the policies before `pbad` have
succeeding `on_request`/`on_exception` hooks and `pbad.on_request`
raises, the chain trace is exactly the `on_request` events of the
earlier policies and of `pbad` (in list order) followed by the
`on_exception` notifications of the earlier policies as the exception
unwinds (in reverse order); the transport is never invoked, no hook of
`pbad` or of any later policy fires besides `pbad.on_request`, and the
original exception propagates. -/
theorem sendNodes_onRequest_raises (sender : Transport) :
    ∀ (pre : List SansIOHTTPPolicy) (pbad : SansIOHTTPPolicy)
      (post : List SansIOHTTPPolicy) (e0 : Err),
    (∀ p ∈ pre, ∀ r, ∃ r', p.on_request r = .ok r') →
    (∀ p ∈ pre, ∀ r, p.on_exception r = .ok ()) →
    (∀ r, pbad.on_request r = .error e0) →
    ∀ r, sendNodes (sansIONodes (pre ++ pbad :: post)) sender r =
      ((pre ++ [pbad]).map (fun p => Event.onRequest p.pid) ++
        (pre.map (fun p => Event.onException p.pid)).reverse, .error e0) := by
  intro pre
  induction pre with
  | nil =>
    intro pbad post e0 _ _ hbad r
    show sansIORunnerSend pbad _ r = _
    simp [sansIORunnerSend, hbad r]
  | cons p rest ih =>
    intro pbad post e0 hpre hexc hbad r
    obtain ⟨r', hr'⟩ := hpre p (List.mem_cons_self p rest) r
    have hrest := ih pbad post e0
      (fun q hq => hpre q (List.mem_cons_of_mem p hq))
      (fun q hq => hexc q (List.mem_cons_of_mem p hq)) hbad r'
    show sansIORunnerSend p
        (fun rr => sendNodes (sansIONodes (rest ++ pbad :: post)) sender rr)
        r = _
    simp only [sansIORunnerSend, hr', hrest,
      hexc p (List.mem_cons_self p rest) r']
    simp [List.append_assoc]

/-- C6: if some simple policy's `on_request` raises, the run aborts
before any network I/O — the trace contains no `transportSend`, no hook
of the raising policy or of any later policy fires (beyond the raising
`on_request` itself), the earlier policies are not rolled back (only
their `on_exception` exception hooks are notified as the exception
unwinds, per the policy contract), and the original exception
propagates to the caller of `run`. -/
theorem claim6_pre_send_failure_aborts
    (sender : Transport) (pre post : List SansIOHTTPPolicy)
    (pbad : SansIOHTTPPolicy) (e0 : Err)
    (request : HttpRequest) (kwargs : Options)
    (hpre : ∀ p ∈ pre, ∀ r, ∃ r', p.on_request r = .ok r')
    (hexc : ∀ p ∈ pre, ∀ r, p.on_exception r = .ok ())
    (hbad : ∀ r, pbad.on_request r = .error e0) :
    Pipeline.run
        (Pipeline.init sender
          ((pre ++ pbad :: post).map
            (fun p => some (PolicyInput.sansIOPolicy p))))
        request kwargs =
      (_prepare_multipart request ++
        ((pre ++ [pbad]).map (fun p => Event.onRequest p.pid) ++
          (pre.map (fun p => Event.onException p.pid)).reverse),
        .error e0) := by
  have h := sendNodes_onRequest_raises sender pre pbad post e0 hpre hexc hbad
    ⟨request, ⟨some sender, kwargs⟩⟩
  rw [Pipeline.run_eq]
  simp only [Pipeline.init, wrapPolicies_sansIO, h]

/-- A simple policy whose `on_request` always raises. -/
def badPolicy (n : Nat) : SansIOHTTPPolicy :=
  ⟨n, fun _ => .error "bad header", fun _ x => .ok x, fun _ => .ok ()⟩

/-- Witness for C6: policy 2's `on_request` raises; the trace is
`on_request 1`, `on_request 2`, then policy 1's exception notification;
policy 3 and the transport are never reached and the error surfaces. -/
theorem claim6_witness :
    Pipeline.run
        (Pipeline.init tOk
          (([pidPolicy 1] ++ badPolicy 2 :: [pidPolicy 3]).map
            (fun p => some (PolicyInput.sansIOPolicy p))))
        reqPlain [] =
      ([Event.onRequest 1, Event.onRequest 2, Event.onException 1],
        .error "bad header") :=
  claim6_pre_send_failure_aborts tOk [pidPolicy 1] [pidPolicy 3] (badPolicy 2)
    "bad header" reqPlain []
    (by intro p hp r; fin_cases hp <;> exact ⟨r, rfl⟩)
    (by intro p hp r; fin_cases hp <;> rfl)
    (fun _ => rfl)

/-! ### C5: HTTP error statuses are not converted into exceptions -/

/-- On an all-simple chain over a transport that returns a fixed
response of arbitrary status, if every hook succeeds, the chain result
is `ok` and carries that response — whatever the status code. -/
theorem sendNodes_any_status_ok (status : Nat) (body : String) :
    ∀ ps : List SansIOHTTPPolicy,
    (∀ p ∈ ps, ∀ r, ∃ r', p.on_request r = .ok r') →
    (∀ p ∈ ps, ∀ r x, p.on_response r x = .ok x) →
    ∀ r, ∃ tr resp,
      sendNodes (sansIONodes ps) ⟨fun _ _ => .ok ⟨status, body⟩⟩ r =
        (tr, .ok resp) ∧ resp.http_response = ⟨status, body⟩ := by
  intro ps
  induction ps with
  | nil =>
    intro _ _ r
    refine ⟨[Event.transportSend (cleanup_kwargs_for_transport
        r.context.options)],
      ⟨r.http_request, ⟨status, body⟩,
        { r.context with
            options := cleanup_kwargs_for_transport r.context.options }⟩,
      ?_, rfl⟩
    simp [sansIONodes, sendNodes, transportRunnerSend]
  | cons p rest ih =>
    intro hreq hresp r
    obtain ⟨r', hr'⟩ := hreq p (List.mem_cons_self p rest) r
    obtain ⟨tr, resp, hrest, hstat⟩ :=
      ih (fun q hq => hreq q (List.mem_cons_of_mem p hq))
        (fun q hq => hresp q (List.mem_cons_of_mem p hq)) r'
    refine ⟨Event.onRequest p.pid :: tr ++ [Event.onResponse p.pid], resp,
      ?_, hstat⟩
    show sansIORunnerSend p
        (fun rr =>
          sendNodes (sansIONodes rest) ⟨fun _ _ => .ok ⟨status, body⟩⟩ rr)
        r = _
    simp only [sansIORunnerSend, hr', hrest,
      hresp p (List.mem_cons_self p rest) r' resp]

/-- C5: whatever status code the transport's response carries —
including 4xx/5xx — `run` over simple policies with succeeding hooks
returns an `ok` `PipelineResponse` carrying exactly that response; the
pipeline core never converts an error status into a raised error. -/
theorem claim5_status_not_inspected
    (ps : List SansIOHTTPPolicy) (status : Nat) (body : String)
    (request : HttpRequest) (kwargs : Options)
    (hreq : ∀ p ∈ ps, ∀ r, ∃ r', p.on_request r = .ok r')
    (hresp : ∀ p ∈ ps, ∀ r x, p.on_response r x = .ok x) :
    ∃ tr resp,
      Pipeline.run
          (Pipeline.init ⟨fun _ _ => Except.ok ⟨status, body⟩⟩
            (ps.map (fun p => some (PolicyInput.sansIOPolicy p))))
          request kwargs =
        (tr, .ok resp) ∧ resp.http_response = ⟨status, body⟩ := by
  obtain ⟨tr, resp, h, hstat⟩ := sendNodes_any_status_ok status body ps hreq
    hresp ⟨request, ⟨some ⟨fun _ _ => Except.ok ⟨status, body⟩⟩, kwargs⟩⟩
  refine ⟨_prepare_multipart request ++ tr, resp, ?_, hstat⟩
  rw [Pipeline.run_eq]
  simp only [Pipeline.init, wrapPolicies_sansIO, h]

/-- Witness for C5: a transport answering 503 still yields an `ok`
`PipelineResponse` carrying the 503 response. -/
theorem claim5_witness :
    ∃ tr resp,
      Pipeline.run
          (Pipeline.init ⟨fun _ _ => Except.ok ⟨503, "unavailable"⟩⟩
            ([pidPolicy 1].map (fun p => some (PolicyInput.sansIOPolicy p))))
          reqPlain [] =
        (tr, .ok resp) ∧ resp.http_response = ⟨503, "unavailable"⟩ :=
  claim5_status_not_inspected [pidPolicy 1] 503 "unavailable" reqPlain []
    (by intro p hp r; fin_cases hp <;> exact ⟨r, rfl⟩)
    (by intro p hp r x; fin_cases hp <;> rfl)

/-! ### C10: the cleaned option bag is what everyone observes post-send -/

/-- On an all-simple chain, every `ok` outcome carries the shared
per-call context as established by the transport runner: provided the
policies' `on_request` hooks keep the option keys distinct and their
`on_response` hooks keep the shared context (they receive the very
context object the transport runner cleaned), none of the three
internal keys survives in the returned response's context. -/
theorem sendNodes_ok_strips_internal_keys (sender : Transport) :
    ∀ ps : List SansIOHTTPPolicy,
    (∀ p ∈ ps, ∀ r r', p.on_request r = .ok r' →
        keysNodup r.context.options → keysNodup r'.context.options) →
    (∀ p ∈ ps, ∀ r x x', p.on_response r x = .ok x' →
        x'.context = x.context) →
    ∀ r tr resp, keysNodup r.context.options →
      sendNodes (sansIONodes ps) sender r = (tr, .ok resp) →
      ∀ k ∈ kwargs_to_remove, lookupOpt resp.context.options k = none := by
  intro ps
  induction ps with
  | nil =>
    intro _ _ r tr resp hnd heq k hk
    rcases hs : sender.send r.http_request
        (cleanup_kwargs_for_transport r.context.options) with e | hr
    · have hval : sendNodes (sansIONodes []) sender r =
          ([Event.transportSend
            (cleanup_kwargs_for_transport r.context.options)], .error e) := by
        simp [sansIONodes, sendNodes, transportRunnerSend, hs]
      rw [hval] at heq
      exact absurd (congrArg Prod.snd heq) (by simp)
    · have hval : sendNodes (sansIONodes []) sender r =
          ([Event.transportSend
            (cleanup_kwargs_for_transport r.context.options)],
            .ok ⟨r.http_request, hr,
              { r.context with
                  options :=
                    cleanup_kwargs_for_transport r.context.options }⟩) := by
        simp [sansIONodes, sendNodes, transportRunnerSend, hs]
      rw [hval] at heq
      have h3 := Except.ok.inj (congrArg Prod.snd heq)
      rw [← h3]
      exact cleanup_lookup_removed _ _ hnd hk
  | cons p rest ih =>
    intro hprsv hctx r tr resp hnd heq k hk
    rcases hq : p.on_request r with e | r'
    · have hval : sendNodes (sansIONodes (p :: rest)) sender r =
          ([Event.onRequest p.pid], .error e) := by
        show sansIORunnerSend p
          (fun rr => sendNodes (sansIONodes rest) sender rr) r = _
        simp [sansIORunnerSend, hq]
      rw [hval] at heq
      exact absurd (congrArg Prod.snd heq) (by simp)
    · rcases hnx : sendNodes (sansIONodes rest) sender r' with ⟨tr2, res2⟩
      rcases res2 with e2 | x
      · rcases hex : p.on_exception r' with e3 | u
        · have hval : sendNodes (sansIONodes (p :: rest)) sender r =
              (Event.onRequest p.pid :: tr2 ++ [Event.onException p.pid],
                .error e3) := by
            show sansIORunnerSend p
              (fun rr => sendNodes (sansIONodes rest) sender rr) r = _
            simp [sansIORunnerSend, hq, hnx, hex]
          rw [hval] at heq
          exact absurd (congrArg Prod.snd heq) (by simp)
        · have hval : sendNodes (sansIONodes (p :: rest)) sender r =
              (Event.onRequest p.pid :: tr2 ++ [Event.onException p.pid],
                .error e2) := by
            show sansIORunnerSend p
              (fun rr => sendNodes (sansIONodes rest) sender rr) r = _
            simp [sansIORunnerSend, hq, hnx, hex]
          rw [hval] at heq
          exact absurd (congrArg Prod.snd heq) (by simp)
      · rcases hor : p.on_response r' x with e3 | x'
        · have hval : sendNodes (sansIONodes (p :: rest)) sender r =
              (Event.onRequest p.pid :: tr2 ++ [Event.onResponse p.pid],
                .error e3) := by
            show sansIORunnerSend p
              (fun rr => sendNodes (sansIONodes rest) sender rr) r = _
            simp [sansIORunnerSend, hq, hnx, hor]
          rw [hval] at heq
          exact absurd (congrArg Prod.snd heq) (by simp)
        · have hval : sendNodes (sansIONodes (p :: rest)) sender r =
              (Event.onRequest p.pid :: tr2 ++ [Event.onResponse p.pid],
                .ok x') := by
            show sansIORunnerSend p
              (fun rr => sendNodes (sansIONodes rest) sender rr) r = _
            simp [sansIORunnerSend, hq, hnx, hor]
          rw [hval] at heq
          have h3 := Except.ok.inj (congrArg Prod.snd heq)
          have hcx := hctx p (List.mem_cons_self p rest) r' x x' hor
          have hmain := ih
            (fun q hqm => hprsv q (List.mem_cons_of_mem p hqm))
            (fun q hqm => hctx q (List.mem_cons_of_mem p hqm))
            r' tr2 x
            (hprsv p (List.mem_cons_self p rest) r r' hq hnd) hnx k hk
          rw [← h3, hcx]
          exact hmain

/-- C10: the transport runner's in-place cleanup of the shared per-call
context is what every observer sees after the send: whenever `run` over
simple policies returns an `ok` `PipelineResponse` (the very object each
upstream `on_response` hook received), its context's option bag no
longer contains `insecure_domain_change`, `enable_cae` or
`tracing_options`, even if they were supplied to `run`. -/
theorem claim10_cleanup_observed_upstream
    (sender : Transport) (ps : List SansIOHTTPPolicy)
    (request : HttpRequest) (kwargs : Options)
    (tr : List Event) (resp : PipelineResponse)
    (hprsv : ∀ p ∈ ps, ∀ r r', p.on_request r = .ok r' →
        keysNodup r.context.options → keysNodup r'.context.options)
    (hctx : ∀ p ∈ ps, ∀ r x x', p.on_response r x = .ok x' →
        x'.context = x.context)
    (hnd : keysNodup kwargs)
    (hrun : Pipeline.run
        (Pipeline.init sender
          (ps.map (fun p => some (PolicyInput.sansIOPolicy p))))
        request kwargs = (tr, .ok resp)) :
    ∀ k ∈ kwargs_to_remove, lookupOpt resp.context.options k = none := by
  rw [Pipeline.run_eq] at hrun
  simp only [Pipeline.init, wrapPolicies_sansIO] at hrun
  have h2 := congrArg Prod.snd hrun
  exact sendNodes_ok_strips_internal_keys sender ps hprsv hctx
    ⟨request, ⟨some sender, kwargs⟩⟩
    (sendNodes (sansIONodes ps) sender
      ⟨request, ⟨some sender, kwargs⟩⟩).1 resp hnd (Prod.ext rfl h2)

/-- Witness for C10: with `enable_cae` supplied to `run`, the returned
response's context no longer contains it. -/
theorem claim10_witness :
    lookupOpt (PipelineResponse.context
      ⟨reqPlain, respOk, ⟨some tOk, [("timeout", "30")]⟩⟩).options
      "enable_cae" = none :=
  claim10_cleanup_observed_upstream tOk [pidPolicy 1] reqPlain
    [("enable_cae", "1"), ("timeout", "30")]
    [Event.onRequest 1, Event.transportSend [("timeout", "30")],
      Event.onResponse 1]
    ⟨reqPlain, respOk, ⟨some tOk, [("timeout", "30")]⟩⟩
    (by intro p hp r r' h hk; fin_cases hp; cases h; exact hk)
    (by intro p hp r x x' h; fin_cases hp; cases h; rfl)
    (by decide) rfl "enable_cae" (by decide)

/-! ### C7: the chain built at construction -/

/-- The linked chain has one node per built policy. -/
theorem linkChain_length (nodes : List ImplNode) (sender : Transport) :
    (linkChain nodes sender).length = nodes.length := by
  simp [linkChain, List.length_mapIdx]

/-- C7: `Pipeline.__init__` builds the chain so that the nodes are
exactly the wrapped policy list (each simple policy inside a runner
adapter, chaining policies as-is, `None` entries dropped), node `i`'s
`next` points at node `i + 1` for every consecutive pair, the last
node's `next` is a `_TransportRunner` over the given transport, and a
node points at a transport runner exactly when it is the last — one
terminal link.  The chain is a pure value fixed at construction;
`Pipeline.run` never modifies it. -/
theorem claim7_chain_linkage (sender : Transport)
    (policies : List (Option PolicyInput)) :
    (Pipeline.linkedChain (Pipeline.init sender policies)).map
        LinkedNode.node = wrapPolicies policies ∧
    (∀ i, ∀ h : i + 1 <
        (Pipeline.linkedChain (Pipeline.init sender policies)).length,
      ((Pipeline.linkedChain (Pipeline.init sender policies)).get
          ⟨i, Nat.lt_of_succ_lt h⟩).next = some (NextPtr.idx (i + 1))) ∧
    (∀ h : Pipeline.linkedChain (Pipeline.init sender policies) ≠ [],
      ((Pipeline.linkedChain (Pipeline.init sender policies)).getLast h).next
        = some (NextPtr.transportRunner sender)) ∧
    (∀ i, ∀ h : i <
        (Pipeline.linkedChain (Pipeline.init sender policies)).length,
      (((Pipeline.linkedChain (Pipeline.init sender policies)).get
          ⟨i, h⟩).pointsAtTransport = true ↔
        i + 1 =
          (Pipeline.linkedChain (Pipeline.init sender policies)).length)) := by
  refine ⟨?_, ?_, ?_, ?_⟩
  · show (linkChain (wrapPolicies policies) sender).map LinkedNode.node = _
    unfold linkChain
    rw [List.mapIdx_eq_enum_map, List.map_map]
    have hcomp : (LinkedNode.node ∘ Function.uncurry fun i n =>
        (⟨n, if i + 1 = (wrapPolicies policies).length
              then some (NextPtr.transportRunner sender)
              else some (NextPtr.idx (i + 1))⟩ : LinkedNode)) = Prod.snd :=
      rfl
    rw [hcomp, List.enum_map_snd]
  · intro i h
    have h2 : i + 1 < (wrapPolicies policies).length := by
      simpa [Pipeline.linkedChain, Pipeline.init, linkChain,
        List.length_mapIdx] using h
    have hne : ¬ i + 1 = (wrapPolicies policies).length := by omega
    simp [List.get_eq_getElem, Pipeline.linkedChain, Pipeline.init, linkChain,
      List.getElem_mapIdx, hne]
  · intro h
    have hpos : 0 < (wrapPolicies policies).length := by
      have hp := List.length_pos.mpr h
      simpa [Pipeline.linkedChain, Pipeline.init, linkChain,
        List.length_mapIdx] using hp
    have hif : (wrapPolicies policies).length - 1 + 1 =
        (wrapPolicies policies).length := by omega
    rw [List.getLast_eq_getElem]
    simp [Pipeline.linkedChain, Pipeline.init, linkChain,
      List.getElem_mapIdx, List.length_mapIdx, hif]
  · intro i h
    by_cases hc : i + 1 = (wrapPolicies policies).length
    · simp [List.get_eq_getElem, Pipeline.linkedChain, Pipeline.init,
        linkChain, List.getElem_mapIdx, List.length_mapIdx, hc,
        LinkedNode.pointsAtTransport]
    · simp [List.get_eq_getElem, Pipeline.linkedChain, Pipeline.init,
        linkChain, List.getElem_mapIdx, List.length_mapIdx, hc,
        LinkedNode.pointsAtTransport]

/-- A concrete chaining policy that just forwards to the next link. -/
def hpForward : HTTPPolicy := ⟨9, fun nx r => nx r⟩

/-- A concrete constructor input: a simple policy, a `None` entry, and a
chaining policy. -/
def polInputs : List (Option PolicyInput) :=
  [some (.sansIOPolicy (pidPolicy 1)), none, some (.httpPolicy hpForward)]

/-- Witness for C7 on a concrete policy list (simple policy, `None`,
chaining policy): node 0 points at node 1, the last node points at the
transport runner over the given transport, and the `None` entry is
dropped while the two policies are wrapped/kept. -/
theorem claim7_witness :
    ((Pipeline.linkedChain (Pipeline.init tOk polInputs)).get
        ⟨0, by decide⟩).next = some (NextPtr.idx 1) ∧
    ((Pipeline.linkedChain (Pipeline.init tOk polInputs)).getLast
        (List.length_pos.mp (by decide))).next =
      some (NextPtr.transportRunner tOk) ∧
    (Pipeline.linkedChain (Pipeline.init tOk polInputs)).map
        LinkedNode.node =
      [ImplNode.sansIORunner (pidPolicy 1), ImplNode.chaining hpForward] :=
  have h := claim7_chain_linkage tOk polInputs
  ⟨h.2.1 0 (by decide), h.2.2.1 (List.length_pos.mp (by decide)), h.1⟩

/-! ### C8: multipart preparation applies all sub-policy hooks first -/

mutual
/-- Specification-side enumeration of the `(sub-policy, sub-request)`
pre-send hook applications the claim requires for one sub-request:
none for a plain sub-request; for a composite one, the applications of
its own changeset (recursively interleaved exactly as the code visits
them). -/
def requiredHooksReq : MPReq → List (Nat × Nat)
  | .simple _ => []
  | .composite _ subs pids _ => requiredHooksList pids subs

/-- Specification-side enumeration for a sub-request list under a
sub-policy list: for each sub-request, its own recursive applications
followed by one application of every sub-policy to it. -/
def requiredHooksList : List Nat → List MPReq → List (Nat × Nat)
  | _, [] => []
  | pids, r :: rs =>
      (requiredHooksReq r ++ pids.map (fun pid => (pid, r.rid))) ++
        requiredHooksList pids rs
end

mutual
/-- The preparation trace of one sub-request is exactly the required
hook applications, in visit order. -/
theorem MPReq_prep_eq : ∀ m : MPReq,
    MPReq.prep m =
      (requiredHooksReq m).map (fun pr => Event.mpOnRequest pr.1 pr.2)
  | .simple _ => rfl
  | .composite _ subs pids _ => by
      show prepSubRequests pids subs = _
      rw [prepSubRequests_eq pids subs]
      rfl

/-- The preparation trace of a sub-request list is exactly the required
hook applications, in visit order. -/
theorem prepSubRequests_eq : ∀ (pids : List Nat) (rs : List MPReq),
    prepSubRequests pids rs =
      (requiredHooksList pids rs).map (fun pr => Event.mpOnRequest pr.1 pr.2)
  | _, [] => rfl
  | pids, r :: rest => by
      show (MPReq.prep r ++ pids.map fun pid => Event.mpOnRequest pid r.rid)
          ++ prepSubRequests pids rest = _
      rw [MPReq_prep_eq r, prepSubRequests_eq pids rest]
      simp [requiredHooksList, List.map_append, List.map_map, Function.comp]
end

/-- Every sub-policy is required to be applied to every direct
sub-request. -/
theorem mem_requiredHooksList (pids : List Nat) (rs : List MPReq)
    (pid : Nat) (hpid : pid ∈ pids) (s : MPReq) (hs : s ∈ rs) :
    (pid, s.rid) ∈ requiredHooksList pids rs := by
  induction rs with
  | nil => cases hs
  | cons r rest ih =>
    show _ ∈ (requiredHooksReq r ++ pids.map (fun pid => (pid, r.rid))) ++
      requiredHooksList pids rest
    rcases List.mem_cons.mp hs with h | h
    · subst h
      exact List.mem_append_left _
        (List.mem_append_right _ (List.mem_map_of_mem _ hpid))
    · exact List.mem_append_right _ (ih h)

/-- A nested changeset's required applications are contained in its
parent list's required applications. -/
theorem mem_requiredHooksList_of_sub (pids : List Nat) (rs : List MPReq)
    (s : MPReq) (hs : s ∈ rs) (pr : Nat × Nat)
    (hpr : pr ∈ requiredHooksReq s) :
    pr ∈ requiredHooksList pids rs := by
  induction rs with
  | nil => cases hs
  | cons r rest ih =>
    show _ ∈ (requiredHooksReq r ++ pids.map (fun pid => (pid, r.rid))) ++
      requiredHooksList pids rest
    rcases List.mem_cons.mp hs with h | h
    · subst h
      exact List.mem_append_left _ (List.mem_append_left _ hpr)
    · exact List.mem_append_right _ (ih h)

/-- C8: for a composite request, `run`'s trace opens with exactly the
required `(sub-policy, sub-request)` pre-send hook applications — every
sub-policy applied to every one of the K sub-requests, recursively for
nested changesets — followed by the single body serialization, and only
then the chain; no hook application occurs after the serialization, and
for a request with no multipart info the preparation phase contributes
nothing. -/
theorem claim8_multipart_preparation
    (pl : Pipeline) (request : HttpRequest) (kwargs : Options)
    (subs : List MPReq) (pids : List Nat) (popts : Options)
    (hinfo : request.multipart_mixed_info = some (subs, pids, popts)) :
    (Pipeline.run pl request kwargs).1 =
      ((requiredHooksList pids subs).map
          (fun pr => Event.mpOnRequest pr.1 pr.2) ++
        Event.serializeMultipartBody ::
          (sendNodes pl._impl_policies pl._transport
            ⟨request, ⟨some pl._transport, kwargs⟩⟩).1) ∧
    (∀ pid ∈ pids, ∀ s ∈ subs, (pid, s.rid) ∈ requiredHooksList pids subs) ∧
    (∀ s ∈ subs, ∀ pr ∈ requiredHooksReq s,
      pr ∈ requiredHooksList pids subs) ∧
    Event.serializeMultipartBody ∉
      (requiredHooksList pids subs).map
        (fun pr => Event.mpOnRequest pr.1 pr.2) ∧
    (∀ r2 : HttpRequest, r2.multipart_mixed_info = none →
      _prepare_multipart r2 = []) := by
  refine ⟨?_,
    fun pid hpid s hs => mem_requiredHooksList pids subs pid hpid s hs,
    fun s hs pr hpr => mem_requiredHooksList_of_sub pids subs s hs pr hpr,
    by simp,
    fun r2 h2 => by
      simp [_prepare_multipart, _prepare_multipart_mixed_request,
        prepare_multipart_body, h2]⟩
  rw [Pipeline.run_eq]
  simp [_prepare_multipart, _prepare_multipart_mixed_request,
    prepare_multipart_body, hinfo, prepSubRequests_eq]

/-- A concrete nested changeset: sub-request 11 carries its own
sub-requests 21, 22 under sub-policy 5. -/
def mpChild : MPReq := .composite 11 [.simple 21, .simple 22] [5] []

/-- A concrete composite request: sub-requests 11 (itself composite)
and 12 under sub-policy 4. -/
def reqMP : HttpRequest :=
  ⟨"POST", "https://contoso.test/batch", [], none,
    some ([mpChild, .simple 12], [4], [])⟩

/-- Witness for C8: the nested hooks (policy 5 on 21 and 22), then
policy 4 on 11 and 12, all strictly before the body serialization and
the transport send. -/
theorem claim8_witness :
    (Pipeline.run (Pipeline.init tOk []) reqMP []).1 =
      [Event.mpOnRequest 5 21, Event.mpOnRequest 5 22,
        Event.mpOnRequest 4 11, Event.mpOnRequest 4 12,
        Event.serializeMultipartBody, Event.transportSend []] ∧
    (4, 11) ∈ requiredHooksList [4] [mpChild, MPReq.simple 12] ∧
    (5, 21) ∈ requiredHooksList [4] [mpChild, MPReq.simple 12] :=
  have h := claim8_multipart_preparation (Pipeline.init tOk []) reqMP []
    [mpChild, .simple 12] [4] [] rfl
  ⟨h.1, h.2.1 4 (by decide) mpChild (List.mem_cons_self _ _),
    h.2.2.1 mpChild (List.mem_cons_self _ _) (5, 21) (by decide)⟩

/-! ### C9: scoped-resource semantics around the transport -/

/-- C9: entering the pipeline as a scoped resource delegates exactly to
the transport's enter and exiting to the transport's exit — each a
single transport-lifecycle event, touching nothing else — and the exit
runs on every exit path: the body's outcome (value or propagating
exception) passes through unchanged, and whenever the body itself emits
no transport-lifecycle events, the whole scope contains exactly one
enter and exactly one exit. -/
theorem claim9_scoped_resource
    (pl : Pipeline) (body : Pipeline → Step PipelineResponse) :
    withPipeline pl body =
      ([Event.transportEnter] ++ (body pl).1 ++ [Event.transportExit],
        (body pl).2) ∧
    pl.enterTrace = [Event.transportEnter] ∧
    pl.exitTrace = [Event.transportExit] ∧
    ((body pl).1.count Event.transportEnter = 0 →
      (withPipeline pl body).1.count Event.transportEnter = 1) ∧
    ((body pl).1.count Event.transportExit = 0 →
      (withPipeline pl body).1.count Event.transportExit = 1) := by
  refine ⟨rfl, rfl, rfl, ?_, ?_⟩
  · intro h
    simp [withPipeline, Pipeline.enterTrace, Pipeline.exitTrace,
      List.count_append, h]
  · intro h
    simp [withPipeline, Pipeline.enterTrace, Pipeline.exitTrace,
      List.count_append, h]

/-- Witness for C9 on a body that raises: the exit still runs, the
exception propagates, and enter/exit each appear exactly once. -/
theorem claim9_witness :
    withPipeline (Pipeline.init tOk []) (fun _ => ([], Except.error "boom"))
      = ([Event.transportEnter, Event.transportExit],
          Except.error "boom") ∧
    (withPipeline (Pipeline.init tOk [])
        (fun _ => ([], Except.error "boom"))).1.count
      Event.transportEnter = 1 ∧
    (withPipeline (Pipeline.init tOk [])
        (fun _ => ([], Except.error "boom"))).1.count
      Event.transportExit = 1 :=
  have h := claim9_scoped_resource (Pipeline.init tOk [])
    (fun _ => ([], Except.error "boom"))
  ⟨h.1, h.2.2.2.1 rfl, h.2.2.2.2 rfl⟩
